import Mathlib

/-!
# Verification of `nitransforms/linear.py` (linear spatial transforms)

Shallow embedding of the linear-transform engine: `Affine` (a single square
homogeneous matrix acting on physical point sets) and
`LinearTransformsMapping` (a stacked series of such matrices), together with
the module-level `load` collapse logic, the `to_filename` format dispatch and
the 4-D `apply` volume-count check.

Numbers are modelled by `ℚ` (the numerical claims under check are exact
integer/rational computations), matrices by Mathlib's `Matrix (Fin (n+1))
(Fin (n+1)) ℚ`, point sets by `List (Fin n → ℚ)`.  `np.linalg.inv`, which
raises `LinAlgError` on a singular input, is modelled by an `Option`-valued
inverse, computed through an executable determinant and adjugate (proved
equal to Mathlib's noncomputable `Matrix.det` / `Matrix.inv` below).
-/

namespace NITransforms

open Matrix

/-- Executable determinant by cofactor expansion along the first row. -/
def detExec : {m : ℕ} → Matrix (Fin m) (Fin m) ℚ → ℚ
  | 0, _ => 1
  | m + 1, M =>
      ∑ j : Fin (m + 1), (-1) ^ (j : ℕ) * M 0 j * detExec (M.submatrix Fin.succ j.succAbove)

theorem detExec_eq {m : ℕ} (M : Matrix (Fin m) (Fin m) ℚ) : detExec M = M.det := by
  induction m with
  | zero => simp [detExec]
  | succ k ih =>
      rw [Matrix.det_succ_row_zero, detExec]
      exact Finset.sum_congr rfl fun j _ => by rw [ih]

/-- Executable adjugate (entrywise Cramer determinants). -/
def adjugateExec {m : ℕ} (A : Matrix (Fin m) (Fin m) ℚ) : Matrix (Fin m) (Fin m) ℚ :=
  Matrix.of fun i j => detExec (A.updateRow j (Pi.single i 1))

theorem adjugateExec_eq {m : ℕ} (A : Matrix (Fin m) (Fin m) ℚ) : adjugateExec A = A.adjugate := by
  ext i j
  rw [adjugateExec, Matrix.adjugate_apply, Matrix.of_apply, detExec_eq]

/-- Executable matrix inverse `det⁻¹ • adjugate`. -/
def matInvExec {m : ℕ} (A : Matrix (Fin m) (Fin m) ℚ) : Matrix (Fin m) (Fin m) ℚ :=
  (detExec A)⁻¹ • adjugateExec A

theorem matInvExec_eq {m : ℕ} (A : Matrix (Fin m) (Fin m) ℚ) : matInvExec A = A⁻¹ := by
  rw [Matrix.inv_def, matInvExec, Ring.inverse_eq_inv, detExec_eq, adjugateExec_eq]

/-- Embedding of `np.linalg.inv` on one square matrix: the inverse when the
matrix is invertible, `none` (the `LinAlgError` path) when it is singular. -/
def npInv {m : ℕ} (M : Matrix (Fin m) (Fin m) ℚ) : Option (Matrix (Fin m) (Fin m) ℚ) :=
  if detExec M ≠ 0 then some (matInvExec M) else none

theorem npInv_eq {m : ℕ} (M : Matrix (Fin m) (Fin m) ℚ) :
    npInv M = if M.det ≠ 0 then some M⁻¹ else none := by
  rw [npInv, detExec_eq, matInvExec_eq]

/-- Embedding of `np.linalg.inv` on a stacked array of square matrices:
numpy inverts each matrix of the stack and raises if any one is singular. -/
def npInvStack {m : ℕ} (Ms : List (Matrix (Fin m) (Fin m) ℚ)) :
    Option (List (Matrix (Fin m) (Fin m) ℚ)) :=
  if ∀ M ∈ Ms, detExec M ≠ 0 then some (Ms.map matInvExec) else none

theorem npInvStack_eq {m : ℕ} (Ms : List (Matrix (Fin m) (Fin m) ℚ)) :
    npInvStack Ms =
      if ∀ M ∈ Ms, M.det ≠ 0 then some (Ms.map fun M => M⁻¹) else none := by
  rw [npInvStack]
  simp only [detExec_eq]
  split <;> [skip; rfl]
  exact congrArg some (List.map_congr_left fun M _ => matInvExec_eq M)

/-- Modelled from the spec: `_as_homogeneous` is defined in the external
`base` module (not under `src/`); following the spec's homogeneous-coordinate
utility and its glossary, a D-dimensional point is represented "with an
appended constant 1". -/
def asHomogeneous {n : ℕ} (p : Fin n → ℚ) : Fin (n + 1) → ℚ :=
  Fin.snoc p 1

/-- The `[..., :-1]` truncation of `Affine.map`: keep the first D of D+1
coordinates. -/
def dropLast {n : ℕ} (v : Fin (n + 1) → ℚ) : Fin n → ℚ :=
  fun i => v i.castSucc

/-- Embedding of `Affine.map` (linear.py lines 94-124): homogenize the
points, multiply by the matrix (or its numerical inverse when `inverse is
True`), return the first D coordinates of each mapped point.  `none` is the
`LinAlgError` raised by `np.linalg.inv` on a singular matrix. -/
def Affine.map {n : ℕ} (matrix : Matrix (Fin (n + 1)) (Fin (n + 1)) ℚ)
    (x : List (Fin n → ℚ)) (inverse : Bool) : Option (List (Fin n → ℚ)) :=
  let affine := if inverse = true then npInv matrix else some matrix
  affine.map fun A => x.map fun p => dropLast (A.mulVec (asHomogeneous p))

/-- Embedding of `LinearTransformsMapping.map` (linear.py lines 254-305):
per-matrix application; after `np.swapaxes(affine.dot(coords), 1, 2)` the
result keeps matrix index as the outer axis, point index as the inner axis,
and the full D+1 homogeneous coordinates (no `[..., :-1]` truncation here). -/
def LinearTransformsMapping.map {n : ℕ}
    (matrix : List (Matrix (Fin (n + 1)) (Fin (n + 1)) ℚ))
    (x : List (Fin n → ℚ)) (inverse : Bool) :
    Option (List (List (Fin (n + 1) → ℚ))) :=
  let affine := if inverse = true then npInvStack matrix else some matrix
  affine.map fun As => As.map fun A => x.map fun p => A.mulVec (asHomogeneous p)

/-! ## Evaluation helpers for 3-D points -/

lemma asHom3 (a b c : ℚ) : asHomogeneous ![a, b, c] = ![a, b, c, 1] := by
  funext i
  fin_cases i <;> rfl

lemma dropLast3 (a b c d : ℚ) : dropLast ![a, b, c, d] = ![a, b, c] := by
  funext i
  fin_cases i <;> rfl

/-! ## C1: singleton mapping agrees with the plain Affine -/

/-- Claim C1: for every square matrix `T`, every point set and either value of
the inverse flag, `LinearTransformsMapping([T]).map` produces (for its single
transform) exactly the points `Affine(T).map` produces, once its first D
columns are taken (`LinearTransformsMapping.map` keeps the extra homogeneous
column); the singular-matrix error behaviour coincides as well. -/
theorem C1_singleton_mapping_consistent {n : ℕ}
    (T : Matrix (Fin (n + 1)) (Fin (n + 1)) ℚ) (x : List (Fin n → ℚ)) (inverse : Bool) :
    (LinearTransformsMapping.map [T] x inverse).map (fun rss => rss.map fun rs => rs.map dropLast)
      = (Affine.map T x inverse).map fun ys => [ys] := by
  cases inverse with
  | false =>
      simp [LinearTransformsMapping.map, Affine.map, List.map_map, Function.comp]
  | true =>
      simp only [LinearTransformsMapping.map, Affine.map, npInvStack, npInv]
      by_cases h : detExec T ≠ 0
      · simp [h, List.map_map, Function.comp]
      · simp [h]

/-! ## C2: concrete translation scenario A -/

/-- The translation matrix of concrete scenario A. -/
def scenarioA : Matrix (Fin 4) (Fin 4) ℚ := !![1, 0, 0, 1; 0, 1, 0, 2; 0, 0, 1, 3; 0, 0, 0, 1]

/-- The inverse translation. -/
def scenarioAinv : Matrix (Fin 4) (Fin 4) ℚ :=
  !![1, 0, 0, -1; 0, 1, 0, -2; 0, 0, 1, -3; 0, 0, 0, 1]

lemma scenarioA_det : detExec scenarioA = 1 := by
  norm_num [detExec, Fin.sum_univ_succ, scenarioA, Matrix.submatrix_apply, Fin.succAbove]

lemma scenarioA_matInvExec : matInvExec scenarioA = scenarioAinv := by
  rw [matInvExec_eq]
  apply Matrix.inv_eq_right_inv
  ext i j
  fin_cases i <;> fin_cases j <;>
    norm_num [Matrix.mul_apply, Fin.sum_univ_four, scenarioA, scenarioAinv, Matrix.one_apply,
      Matrix.vecHead, Matrix.vecTail, Fin.ext_iff]

lemma scenarioA_fwd : scenarioA.mulVec ![0, 0, 0, 1] = ![1, 2, 3, 1] := by
  funext i
  fin_cases i <;> norm_num [Matrix.mulVec, Matrix.dotProduct, Fin.sum_univ_four, scenarioA]

lemma scenarioAinv_fwd : scenarioAinv.mulVec ![0, 0, 0, 1] = ![-1, -2, -3, 1] := by
  funext i
  fin_cases i <;> norm_num [Matrix.mulVec, Matrix.dotProduct, Fin.sum_univ_four, scenarioAinv]

/-- Claim C2: the translation `Affine([[1,0,0,1],[0,1,0,2],[0,0,1,3],[0,0,0,1]])`
maps `(0,0,0)` to exactly `[[1,2,3]]` forward and to exactly `[[-1,-2,-3]]`
with `inverse=True`. -/
theorem C2_translation_scenarioA :
    Affine.map scenarioA [![0, 0, 0]] false = some [![1, 2, 3]] ∧
    Affine.map scenarioA [![0, 0, 0]] true = some [![-1, -2, -3]] := by
  constructor
  · simp [Affine.map, asHom3, scenarioA_fwd, dropLast3]
  · simp [Affine.map, npInv, scenarioA_det, scenarioA_matInvExec, asHom3, scenarioAinv_fwd,
      dropLast3]

/-! ## C3: forward/inverse round trip -/

lemma dropLast_asHomogeneous {n : ℕ} (p : Fin n → ℚ) : dropLast (asHomogeneous p) = p := by
  funext i
  simp [dropLast, asHomogeneous]

lemma asHomogeneous_dropLast {n : ℕ} (v : Fin (n + 1) → ℚ) (h : v (Fin.last n) = 1) :
    asHomogeneous (dropLast v) = v := by
  funext i
  refine Fin.lastCases ?_ (fun j => ?_) i
  · simp [asHomogeneous, h]
  · simp [asHomogeneous, dropLast]

/-- A matrix whose last row is the homogeneous row `[0, …, 0, 1]` preserves
the last (homogeneous) coordinate under `mulVec`. -/
lemma mulVec_last_of_homogeneous_row {n : ℕ} (T : Matrix (Fin (n + 1)) (Fin (n + 1)) ℚ)
    (hrow : ∀ j, T (Fin.last n) j = if j = Fin.last n then 1 else 0) (v : Fin (n + 1) → ℚ) :
    T.mulVec v (Fin.last n) = v (Fin.last n) := by
  simp [Matrix.mulVec, Matrix.dotProduct, hrow, ite_mul, Finset.sum_ite_eq']

/-- The matrix of the C3 counterexample: an invertible (indeed involutive)
permutation matrix swapping the first and the homogeneous coordinate. -/
def swapMat : Matrix (Fin 4) (Fin 4) ℚ := !![0, 0, 0, 1; 0, 1, 0, 0; 0, 0, 1, 0; 1, 0, 0, 0]

lemma swapMat_mul_self : swapMat * swapMat = 1 := by
  ext i j
  fin_cases i <;> fin_cases j <;>
    norm_num [Matrix.mul_apply, Fin.sum_univ_four, swapMat, Matrix.one_apply,
      Matrix.vecHead, Matrix.vecTail, Fin.ext_iff]

lemma swapMat_det_ne_zero : swapMat.det ≠ 0 :=
  isUnit_iff_ne_zero.mp (Matrix.isUnit_det_of_right_inverse swapMat_mul_self)

lemma swapMat_inv : swapMat⁻¹ = swapMat := Matrix.inv_eq_right_inv swapMat_mul_self

lemma swapMat_mulVec_origin : swapMat.mulVec ![0, 0, 0, 1] = ![1, 0, 0, 0] := by
  funext i
  fin_cases i <;> norm_num [Matrix.mulVec, Matrix.dotProduct, Fin.sum_univ_four, swapMat]

lemma swapMat_mulVec_back : swapMat.mulVec ![1, 0, 0, 1] = ![1, 0, 0, 1] := by
  funext i
  fin_cases i <;> norm_num [Matrix.mulVec, Matrix.dotProduct, Fin.sum_univ_four, swapMat]

/-- Counterexample to claim C3 as stated: `swapMat` is invertible, yet mapping
the origin forward and then with `inverse=True` yields `[[1,0,0]]`, not the
original `[[0,0,0]]` — the truncation to the first D coordinates loses the
homogeneous coordinate whenever the last row of the matrix is not
`[0, …, 0, 1]`. -/
theorem C3_roundtrip_counterexample :
    swapMat.det ≠ 0 ∧
    (Affine.map swapMat [![0, 0, 0]] false).bind (fun ys => Affine.map swapMat ys true)
      ≠ some [![0, 0, 0]] := by
  refine ⟨swapMat_det_ne_zero, ?_⟩
  have hfwd : Affine.map swapMat [![0, 0, 0]] false = some [![1, 0, 0]] := by
    simp [Affine.map, asHom3, swapMat_mulVec_origin, dropLast3]
  have hinv : Affine.map swapMat [![1, 0, 0]] true = some [![1, 0, 0]] := by
    simp [Affine.map, npInv_eq, swapMat_det_ne_zero, swapMat_inv, asHom3, swapMat_mulVec_back,
      dropLast3]
  rw [hfwd, show (some [![(1 : ℚ), 0, 0]]).bind (fun ys => Affine.map swapMat ys true)
      = Affine.map swapMat [![1, 0, 0]] true from rfl, hinv]
  intro hcontra
  rw [Option.some.injEq, List.cons.injEq] at hcontra
  have h0 := congrFun hcontra.1 0
  norm_num at h0

/-- Claim C3 (amended): for every matrix `T` that is invertible **and whose
last row is the homogeneous row `[0, …, 0, 1]`**, mapping a point set forward
and then with `inverse=True` recovers it exactly. -/
theorem C3_roundtrip_amended {n : ℕ} (T : Matrix (Fin (n + 1)) (Fin (n + 1)) ℚ)
    (hdet : T.det ≠ 0)
    (hrow : ∀ j, T (Fin.last n) j = if j = Fin.last n then 1 else 0)
    (x : List (Fin n → ℚ)) :
    (Affine.map T x false).bind (fun ys => Affine.map T ys true) = some x := by
  have key : ∀ p : Fin n → ℚ,
      dropLast (T⁻¹.mulVec (asHomogeneous (dropLast (T.mulVec (asHomogeneous p))))) = p := by
    intro p
    have hlast : T.mulVec (asHomogeneous p) (Fin.last n) = 1 := by
      rw [mulVec_last_of_homogeneous_row T hrow]
      simp [asHomogeneous]
    rw [asHomogeneous_dropLast _ hlast, Matrix.mulVec_mulVec,
      Matrix.nonsing_inv_mul T (isUnit_iff_ne_zero.mpr hdet), Matrix.one_mulVec,
      dropLast_asHomogeneous]
  have h1 : Affine.map T x false = some (x.map fun p => dropLast (T.mulVec (asHomogeneous p))) := by
    simp [Affine.map]
  have h2 : npInv T = some T⁻¹ := by simp [npInv_eq, hdet]
  rw [h1, show (some (x.map fun p => dropLast (T.mulVec (asHomogeneous p)))).bind
      (fun ys => Affine.map T ys true)
      = Affine.map T (x.map fun p => dropLast (T.mulVec (asHomogeneous p))) true from rfl]
  simp only [Affine.map, if_pos, h2, Option.map_some']
  refine congrArg some ?_
  rw [List.map_map]
  conv_rhs => rw [← List.map_id x]
  exact List.map_congr_left fun p _ => key p

/-- Witness for the amended C3 at the concrete translation of scenario A. -/
theorem C3_roundtrip_amended_witness :
    (Affine.map scenarioA [![0, 0, 0]] false).bind (fun ys => Affine.map scenarioA ys true)
      = some [![0, 0, 0]] := by
  refine C3_roundtrip_amended scenarioA ?_ ?_ [![0, 0, 0]]
  · rw [← detExec_eq, scenarioA_det]
    norm_num
  · intro j
    fin_cases j <;> norm_num [scenarioA, Fin.ext_iff, Fin.last]

/-! ## C4: 4-D apply volume-count check -/

/-- Embedding of the resampling control flow of
`LinearTransformsMapping.apply` (linear.py lines 397-442), abstracted over
the external spline-interpolation kernel `interp` (one
`scipy.ndimage.map_coordinates` call per volume of a 4-D series, a single
call for 2-D/3-D data).  `nxfms` is `len(self)`, `ndim`/`nvols` are the
squeezed moving data's dimensionality and trailing-axis length.  On 4-D data
with a volume count different from the transform count the `ValueError`
(the spec's *DimensionMismatchError*) is raised before `interp` is ever
consulted. -/
def LinearTransformsMapping.apply {β : Type} (interp : ℕ → β)
    (nxfms ndim nvols : ℕ) : Except String (List β) :=
  if ndim = 4 then
    if nxfms ≠ nvols then
      .error ("Attempting to apply " ++ toString nxfms ++ " transforms on a file with "
        ++ toString nvols ++ " timepoints")
    else .ok ((List.range nvols).map interp)
  else if ndim = 2 ∨ ndim = 3 then .ok [interp 0]
  else .error "UnboundLocalError"

/-- Claim C4: applying 4-D moving data whose volume count differs from the
number of transforms fails with the dimension-mismatch error, uniformly in
the interpolation kernel — i.e. before any interpolation work happens. -/
theorem C4_dimension_mismatch_before_interp {β : Type} (interp : ℕ → β)
    (nxfms nvols : ℕ) (h : nxfms ≠ nvols) :
    LinearTransformsMapping.apply interp nxfms 4 nvols
      = .error ("Attempting to apply " ++ toString nxfms ++ " transforms on a file with "
        ++ toString nvols ++ " timepoints") := by
  simp [LinearTransformsMapping.apply, h]

/-- Witness: scenario D, a 4-D image with 3 volumes against a mapping of
length 2. -/
theorem C4_dimension_mismatch_witness :
    LinearTransformsMapping.apply (fun _ => (0 : ℕ)) 2 4 3
      = .error ("Attempting to apply " ++ toString 2 ++ " transforms on a file with "
        ++ toString 3 ++ " timepoints") :=
  C4_dimension_mismatch_before_interp (fun _ => (0 : ℕ)) 2 3 (by decide)

/-! ## C6: LinearTransformsMapping construction -/

/-- An element of the `transforms` argument of
`LinearTransformsMapping.__init__`: either an `Affine` instance or a raw
matrix (the code wraps raw matrices as `Affine(xfm)` and reads `.matrix`). -/
inductive TransformInput (n : ℕ) where
  | affineObj (M : Matrix (Fin (n + 1)) (Fin (n + 1)) ℚ)
  | rawMatrix (M : Matrix (Fin (n + 1)) (Fin (n + 1)) ℚ)

/-- The matrix an input element contributes to the stack. -/
def TransformInput.toMatrix {n : ℕ} : TransformInput n → Matrix (Fin (n + 1)) (Fin (n + 1)) ℚ
  | .affineObj M => M
  | .rawMatrix M => M

/-- The message of the `TypeError` of linear.py lines 234-236. -/
def emptySequenceMsg : String :=
  "Transforms should be a list of Affines or linear transforms matrix with at least two elements."

/-- Embedding of `LinearTransformsMapping.__init__` (linear.py lines
204-244): `None` or a sequence with no first row raises (`TypeError`, the
spec's *EmptySequenceError*); otherwise the elements' matrices are stacked. -/
def LinearTransformsMapping.init {n : ℕ} (transforms : Option (List (TransformInput n))) :
    Except String (List (Matrix (Fin (n + 1)) (Fin (n + 1)) ℚ)) :=
  match transforms with
  | none => .error emptySequenceMsg
  | some ts =>
      if ts.length < 1 then .error emptySequenceMsg
      else .ok (ts.map TransformInput.toMatrix)

/-- Claim C6: constructing a `LinearTransformsMapping` from `None` or an
empty sequence raises the empty-sequence error, while any non-empty sequence
of matrices and/or Affine instances is accepted and stacked. -/
theorem C6_empty_sequence_error {n : ℕ} :
    LinearTransformsMapping.init (none : Option (List (TransformInput n))) =
        .error emptySequenceMsg ∧
    LinearTransformsMapping.init (some ([] : List (TransformInput n))) =
        .error emptySequenceMsg ∧
    ∀ ts : List (TransformInput n), ts ≠ [] →
      LinearTransformsMapping.init (some ts) = .ok (ts.map TransformInput.toMatrix) := by
  refine ⟨rfl, rfl, fun ts hts => ?_⟩
  have : ¬ ts.length < 1 := by
    simpa [Nat.lt_one_iff, List.length_eq_zero] using hts
  simp [LinearTransformsMapping.init, this]

/-- Witness: a singleton list holding one raw matrix is accepted. -/
theorem C6_empty_sequence_witness :
    LinearTransformsMapping.init
        (some [TransformInput.rawMatrix (1 : Matrix (Fin 4) (Fin 4) ℚ)]) =
      .ok [(1 : Matrix (Fin 4) (Fin 4) ℚ)] :=
  (@C6_empty_sequence_error 3).2.2 [TransformInput.rawMatrix 1] (by simp)

/-! ## C5: module-level load collapse -/

/-- Result of module-level `load`: either a plain `Affine` (exactly one
matrix) or a `LinearTransformsMapping` over the stacked matrices. -/
inductive LoadResult (n : ℕ) where
  | affine (M : Matrix (Fin (n + 1)) (Fin (n + 1)) ℚ)
  | mapping (Ms : List (Matrix (Fin (n + 1)) (Fin (n + 1)) ℚ))

/-- Embedding of `LinearTransformsMapping.from_filename`
(linear.py lines 180-198) as invoked by `load`: the format parser's output
`struct.to_ras(...)` (a stack of matrices, abstracted as the input `parsed`
— the `io` adapters are external collaborators) is handed whole to the
`LinearTransformsMapping` constructor; since `cls` is not `Affine`, the
single-matrix collapse branch of `from_filename` is not taken. -/
def LinearTransformsMapping.from_filename {n : ℕ}
    (parsed : List (Matrix (Fin (n + 1)) (Fin (n + 1)) ℚ)) :
    Except String (List (Matrix (Fin (n + 1)) (Fin (n + 1)) ℚ)) :=
  LinearTransformsMapping.init (some (parsed.map TransformInput.rawMatrix))

/-- Embedding of the module-level `load` (linear.py lines 445-465): load the
file as a mapping, then unwrap to a plain `Affine` exactly when the mapping
has length one. -/
def load {n : ℕ} (parsed : List (Matrix (Fin (n + 1)) (Fin (n + 1)) ℚ)) :
    Except String (LoadResult n) :=
  match LinearTransformsMapping.from_filename parsed with
  | .error e => .error e
  | .ok stack => if stack.length = 1 then .ok (.affine stack.headI) else .ok (.mapping stack)

/-- Claim C5: `load` on a parsed file holding exactly one transform returns a
plain `Affine` (not a mapping); on N > 1 transforms it returns the mapping of
all N matrices (its length is N); an empty parse errors out. -/
theorem C5_load_collapse {n : ℕ} (parsed : List (Matrix (Fin (n + 1)) (Fin (n + 1)) ℚ)) :
    load parsed =
      if parsed.length = 0 then .error emptySequenceMsg
      else if parsed.length = 1 then .ok (.affine parsed.headI)
      else .ok (.mapping parsed) := by
  have hok : LinearTransformsMapping.from_filename parsed =
      if parsed.length < 1 then .error emptySequenceMsg else .ok parsed := by
    simp only [LinearTransformsMapping.from_filename, LinearTransformsMapping.init,
      List.length_map]
    split
    · rfl
    · rw [List.map_map]
      congr 1
      conv_rhs => rw [← List.map_id parsed]
      exact List.map_congr_left fun q _ => rfl
  rcases parsed with _ | ⟨m, _ | ⟨m2, ms⟩⟩
  · simp only [load, hok]
    simp
  · simp only [load, hok]
    simp
  · simp only [load, hok]
    simp

/-! ## C7: Affine construction shape validation -/

/-- The dynamic shape of the numpy array `np.array(matrix)` built by
`Affine.__init__`; `ndim` is the length of the shape tuple. -/
structure NDArray where
  shape : List ℕ

/-- Embedding of the validation in `Affine.__init__` (linear.py lines
58-67): default the matrix to the 4×4 identity, then require `ndim == 2`
and `shape[0] == shape[1]`; `TypeError` (the spec's *ShapeError*)
otherwise. -/
def Affine.init (matrix : Option NDArray) : Except String NDArray :=
  let m := matrix.getD ⟨[4, 4]⟩
  if m.shape.length ≠ 2 then .error "Affine should be 2D."
  else if m.shape.headI ≠ m.shape.getD 1 0 then .error "Matrix is not square."
  else .ok m

/-- Claim C7: the default matrix (4×4 identity shape) is accepted, and a
supplied matrix is rejected exactly when it is not 2-dimensional or not
square. -/
theorem C7_shape_validation :
    Affine.init none = .ok ⟨[4, 4]⟩ ∧
    ∀ a : NDArray,
      ((∃ e, Affine.init (some a) = .error e) ↔
        (a.shape.length ≠ 2 ∨ a.shape.headI ≠ a.shape.getD 1 0)) := by
  refine ⟨rfl, fun a => ?_⟩
  simp only [Affine.init, Option.getD_some]
  split_ifs with h1 h2
  · simp [h1]
  · exact iff_of_true ⟨_, rfl⟩ (Or.inr h2)
  · simp only [ne_eq, reduceCtorEq, exists_false, false_iff, not_or, not_not]
    exact ⟨not_not.mp h1, not_not.mp h2⟩

/-! ## C8: Affine equality -/

/-- Embedding of `np.allclose(a, b, rtol=rtol)` elementwise on square
matrices with numpy's documented comparison `|a - b| <= atol + rtol * |b|`. -/
def np_allclose {m : ℕ} (rtol atol : ℚ) (a b : Matrix (Fin m) (Fin m) ℚ) : Bool :=
  decide (∀ i j, |a i j - b i j| ≤ atol + rtol * |b i j|)

/-- Numpy's default absolute tolerance `1e-8` (the `__eq__` call overrides
only `rtol`). -/
def np_atol_default : ℚ := 1 / 100000000

/-- An `Affine` object as `__eq__` reads it: the matrix and the bound
reference, the latter abstracted to an identifier compared for (in)equality
only. -/
structure AffineObj (m : ℕ) where
  matrix : Matrix (Fin m) (Fin m) ℚ
  reference : Option ℕ

/-- Modelled from the spec: the constant `EQUALITY_TOL` lives in the
external `base` module (not under `src/`), and the spec describes it only as
"a fixed relative tolerance", so the embedding of `Affine.__eq__`
(linear.py lines 72-87) is parameterized by it.  The first component of the
result is the returned boolean, the second records whether the non-fatal
reference-mismatch warning fired; no error path exists. -/
def Affine.eq {m : ℕ} (EQUALITY_TOL : ℚ) (a b : AffineObj m) : Bool × Bool :=
  let e := np_allclose EQUALITY_TOL np_atol_default a.matrix b.matrix
  (e, e && decide (a.reference ≠ b.reference))

/-- Claim C8: `__eq__` returns `True` exactly when the matrices are
allclose within the fixed relative tolerance (plus numpy's default absolute
tolerance); identical matrices always compare equal; and whenever the
reference warning fires the comparison nevertheless returned `True` with the
references differing — a warning, never an error. -/
theorem C8_equality_semantics {m : ℕ} (tol : ℚ) (a b : AffineObj m) :
    ((Affine.eq tol a b).1 = true ↔
      ∀ i j, |a.matrix i j - b.matrix i j| ≤ np_atol_default + tol * |b.matrix i j|) ∧
    ((Affine.eq tol a b).2 = true →
      (Affine.eq tol a b).1 = true ∧ a.reference ≠ b.reference) ∧
    (0 ≤ tol → a.matrix = b.matrix → (Affine.eq tol a b).1 = true) := by
  refine ⟨by simp [Affine.eq, np_allclose], ?_, fun htol hmat => ?_⟩
  · intro h
    simp only [Affine.eq, Bool.and_eq_true, decide_eq_true_eq] at h
    exact ⟨h.1, h.2⟩
  · simp only [Affine.eq, np_allclose, decide_eq_true_eq, hmat]
    intro i j
    simp only [sub_self, abs_zero]
    have : 0 ≤ np_atol_default := by norm_num [np_atol_default]
    exact add_nonneg this (mul_nonneg htol (abs_nonneg _))

/-- Two equal-matrix Affines with different bound references. -/
def affineObjA : AffineObj 4 := ⟨0, some 0⟩

/-- As `affineObjA` but bound to another reference. -/
def affineObjB : AffineObj 4 := ⟨0, some 1⟩

/-- Witness: with matching matrices and mismatching references the warning
fires while equality still returns `True`. -/
theorem C8_equality_witness :
    (Affine.eq 0 affineObjA affineObjB).1 = true ∧
    affineObjA.reference ≠ affineObjB.reference := by
  have h2 : (Affine.eq 0 affineObjA affineObjB).2 = true := by
    simp only [Affine.eq, np_allclose, affineObjA, affineObjB, Bool.and_eq_true,
      decide_eq_true_eq]
    refine ⟨fun i j => ?_, by simp⟩
    norm_num [np_atol_default, Matrix.zero_apply]
  exact (C8_equality_semantics 0 affineObjA affineObjB).2.1 h2

/-! ## C9: to_filename default format -/

/-- Embedding of Python's `str.lower()` on the (ASCII) format keys. -/
def strLower (s : String) : String := String.mk (s.data.map Char.toLower)

/-- The format adapter a `to_filename` dispatch hands the transform to. -/
inductive WriteAction where
  | itk
  | afni
  | fsl
  | fs

/-- Embedding of `Affine.to_filename` (linear.py lines 135-178): dispatch on
the lower-cased format key, handing the matrix to the matching adapter
(abstracted as `write`); an unrecognized key — including the documented
default `'X5'` — reaches the final `raise NotImplementedError` without any
adapter call. -/
def Affine.to_filename {α : Type} (write : WriteAction → Matrix (Fin 4) (Fin 4) ℚ → α)
    (matrix : Matrix (Fin 4) (Fin 4) ℚ) (fmt : String) : Except String α :=
  if strLower fmt = "itk" ∨ strLower fmt = "ants" ∨ strLower fmt = "elastix" then
    .ok (write .itk matrix)
  else if strLower fmt = "afni" then .ok (write .afni matrix)
  else if strLower fmt = "fsl" then .ok (write .fsl matrix)
  else if strLower fmt = "fs" then .ok (write .fs matrix)
  else .error "NotImplementedError"

/-- Embedding of `LinearTransformsMapping.to_filename` (linear.py lines
307-350): the same dispatch over the array variants of the adapters. -/
def LinearTransformsMapping.to_filename {α : Type}
    (write : WriteAction → List (Matrix (Fin 4) (Fin 4) ℚ) → α)
    (matrix : List (Matrix (Fin 4) (Fin 4) ℚ)) (fmt : String) : Except String α :=
  if strLower fmt = "itk" ∨ strLower fmt = "ants" ∨ strLower fmt = "elastix" then
    .ok (write .itk matrix)
  else if strLower fmt = "afni" then .ok (write .afni matrix)
  else if strLower fmt = "fsl" then .ok (write .fsl matrix)
  else if strLower fmt = "fs" then .ok (write .fs matrix)
  else .error "NotImplementedError"

/-- Claim C9: with the default format key `'X5'`, both `to_filename`s raise
`NotImplementedError` for every transform, uniformly in the adapters — no
adapter (and hence no write) is invoked. -/
theorem C9_default_format_unsupported {α : Type}
    (write : WriteAction → Matrix (Fin 4) (Fin 4) ℚ → α)
    (writeArr : WriteAction → List (Matrix (Fin 4) (Fin 4) ℚ) → α)
    (M : Matrix (Fin 4) (Fin 4) ℚ) (Ms : List (Matrix (Fin 4) (Fin 4) ℚ)) :
    Affine.to_filename write M "X5" = .error "NotImplementedError" ∧
    LinearTransformsMapping.to_filename writeArr Ms "X5" = .error "NotImplementedError" := by
  constructor <;>
  · simp only [Affine.to_filename, LinearTransformsMapping.to_filename]
    rw [if_neg (by decide), if_neg (by decide), if_neg (by decide), if_neg (by decide)]

/-! ## C10: the inverse flag is tested by identity with True -/

/-- A Python value passed as the `inverse` argument: the booleans are
objects distinct from the integers. -/
inductive PyObj where
  | pybool (b : Bool)
  | pyint (k : ℤ)
deriving DecidableEq

/-- Embedding of the test `inverse is True`: object identity with the
singleton `True`. -/
def PyObj.isTrueObj : PyObj → Bool
  | .pybool true => true
  | _ => false

/-- Python truthiness `bool(x)` of the modelled values. -/
def PyObj.truthy : PyObj → Bool
  | .pybool b => b
  | .pyint k => k != 0

/-- Embedding of `Affine.map` as called with an arbitrary Python value for
`inverse`: linear.py line 122 inverts only when `inverse is True`. -/
def Affine.mapPy {n : ℕ} (matrix : Matrix (Fin (n + 1)) (Fin (n + 1)) ℚ)
    (x : List (Fin n → ℚ)) (inverse : PyObj) : Option (List (Fin n → ℚ)) :=
  Affine.map matrix x inverse.isTrueObj

/-- Embedding of `LinearTransformsMapping.map` likewise (linear.py line
303). -/
def LinearTransformsMapping.mapPy {n : ℕ}
    (matrix : List (Matrix (Fin (n + 1)) (Fin (n + 1)) ℚ))
    (x : List (Fin n → ℚ)) (inverse : PyObj) : Option (List (List (Fin (n + 1) → ℚ))) :=
  LinearTransformsMapping.map matrix x inverse.isTrueObj

/-- Claim C10: any truthy `inverse` value other than the boolean `True`
(e.g. the integer 1) applies the forward transform in both `map`s, and only
the boolean `True` itself triggers inversion. -/
theorem C10_inverse_flag_identity_test {n : ℕ}
    (M : Matrix (Fin (n + 1)) (Fin (n + 1)) ℚ)
    (Ms : List (Matrix (Fin (n + 1)) (Fin (n + 1)) ℚ))
    (x : List (Fin n → ℚ)) (v : PyObj)
    (hv : v ≠ .pybool true) (htruthy : v.truthy = true) :
    Affine.mapPy M x v = Affine.map M x false ∧
    LinearTransformsMapping.mapPy Ms x v = LinearTransformsMapping.map Ms x false ∧
    Affine.mapPy M x (.pybool true) = Affine.map M x true := by
  have hobj : v.isTrueObj = false := by
    cases v with
    | pybool b =>
        cases b with
        | false => rfl
        | true => exact absurd rfl hv
    | pyint k => rfl
  exact ⟨by rw [Affine.mapPy, hobj], by rw [LinearTransformsMapping.mapPy, hobj], rfl⟩

/-- Witness: `inverse=1` (truthy, not the boolean `True`) leaves the
identity transform acting forward. -/
theorem C10_inverse_flag_witness :
    Affine.mapPy (1 : Matrix (Fin 4) (Fin 4) ℚ) [![0, 0, 0]] (.pyint 1)
        = Affine.map (1 : Matrix (Fin 4) (Fin 4) ℚ) [![0, 0, 0]] false ∧
    LinearTransformsMapping.mapPy [(1 : Matrix (Fin 4) (Fin 4) ℚ)] [![0, 0, 0]] (.pyint 1)
        = LinearTransformsMapping.map [(1 : Matrix (Fin 4) (Fin 4) ℚ)] [![0, 0, 0]] false ∧
    Affine.mapPy (1 : Matrix (Fin 4) (Fin 4) ℚ) [![0, 0, 0]] (.pybool true)
        = Affine.map (1 : Matrix (Fin 4) (Fin 4) ℚ) [![0, 0, 0]] true :=
  C10_inverse_flag_identity_test 1 [1] [![0, 0, 0]] (.pyint 1) (by decide) (by decide)

end NITransforms
